import Mathlib

/-!
Shallow embedding of the book structure detector implemented in
src/books/book_structure_analyzer.py (class BookStructureAnalyzer), together
with proofs about the claims of the specification.

Strings are modelled as lists of characters (`Str`).  Python whitespace is
modelled by its ASCII fragment, and the same predicate is used consistently
for `str.split`, `str.strip` and the regex class `\s`, exactly as CPython
uses one notion of whitespace in all three places for ASCII text.  The three
regular expressions of `chapter_patterns` are compiled by hand into the
matchers below; each matcher follows the backtracking semantics of `re.match`
on the stripped line (the only way the analyzer ever invokes them).  Python
`round` (banker's rounding) is modelled exactly over the rationals.
-/

/-- Python strings are sequences of characters. -/
abbrev Str := List Char

/-- Whitespace predicate shared by str.split, str.strip and the regex class \s
(ASCII fragment). -/
def isSpace (c : Char) : Bool :=
  c == ' ' || c == '\t' || c == '\n' || c == '\r' || c == '\x0b' || c == '\x0c'

/-- Python str.strip: remove leading and trailing whitespace. -/
def strip (s : Str) : Str :=
  ((s.dropWhile isSpace).reverse.dropWhile isSpace).reverse

/-- Python str.lower (ASCII fragment). -/
def lower (s : Str) : Str := s.map Char.toLower

/-- Characters of the regex class [IVXLCDM]. -/
def isRoman (c : Char) : Bool :=
  c == 'I' || c == 'V' || c == 'X' || c == 'L' || c == 'C' || c == 'D' || c == 'M'

/-- Whether the first string is a leading segment of the second. -/
def startsWith : Str → Str → Bool
  | [], _ => true
  | _ :: _, [] => false
  | p :: ps, c :: cs => p == c && startsWith ps cs

/-- Index of the first occurrence of pat in s, as used by Python substring
search (the operator in, and str.split with a separator). -/
def findSub (pat : Str) : Str → Option Nat
  | [] => if startsWith pat [] then some 0 else none
  | c :: rest =>
    if startsWith pat (c :: rest) then some 0
    else (findSub pat rest).map (fun n => n + 1)

/-- Python substring membership: pat in s. -/
def occursIn (pat s : Str) : Bool := (findSub pat s).isSome

/-- Helper of split_ws: accumulates the current token reversed. -/
def split_ws_go (cur : Str) : Str → List Str
  | [] => if cur.isEmpty then [] else [cur.reverse]
  | c :: rest =>
    if isSpace c then
      if cur.isEmpty then split_ws_go [] rest
      else cur.reverse :: split_ws_go [] rest
    else split_ws_go (c :: cur) rest

/-- Python str.split with no argument: the maximal whitespace-free tokens. -/
def split_ws (s : Str) : List Str := split_ws_go [] s

/-- Python s.split of a newline: cut at every newline, keeping empty pieces;
the empty string yields one empty line. -/
def split_lines : Str → List Str
  | [] => [[]]
  | c :: rest =>
    if c == '\n' then [] :: split_lines rest
    else
      match split_lines rest with
      | [] => [[c]]
      | l :: ls => (c :: l) :: ls

/-- Helper of remove_all; the fuel only bounds the recursion and is always
called with at least the length of the string. -/
def remove_all_go (pat : Str) : Nat → Str → Str
  | _, [] => []
  | 0, s => s
  | fuel + 1, c :: rest =>
    if startsWith pat (c :: rest) then
      remove_all_go pat fuel (rest.drop (pat.length - 1))
    else c :: remove_all_go pat fuel rest

/-- Python s.replace(pat, ""): remove every occurrence of pat, scanning left
to right without overlap. -/
def remove_all (pat s : Str) : Str := remove_all_go pat s.length s

/-!  The three regular expressions of chapter_patterns.

Pattern 1: (?:Chapter|CHAPTER)\s+(\d+|[IVXLCDM]+)(?:\s*[:.-]\s*)?(.+)?
Pattern 2: (?:Section|SECTION)\s+(\d+|[IVXLCDM]+)(?:\s*[:.-]\s*)?(.+)?
Pattern 3: ^\s*(\d+|[IVXLCDM]+)\.\s+(.+)$

They are only ever applied through re.match to line.strip(), so the input has
no newline and no leading or trailing whitespace; the matchers below realize
the backtracking semantics of re.match on such inputs.  A match returns the
pair of group 1 (the number token, always present) and group 2 (the optional
title suffix, never the empty string because (.+) cannot match emptily). -/

/-- Matcher of patterns 1 and 2 of chapter_patterns, parameterized by the two
keyword spellings.  The alternatives Chapter and CHAPTER cannot both be
leading segments of the same line, and since everything after group 1 is
optional, no backtracking into the greedy pieces is observable. -/
def match_keyword (kw kwU : Str) (t : Str) : Option (Str × Option Str) :=
  let afterOpt : Option Str :=
    if startsWith kw t then some (t.drop kw.length)
    else if startsWith kwU t then some (t.drop kwU.length)
    else none
  match afterOpt with
  | none => none
  | some after =>
    if (after.takeWhile isSpace).isEmpty then none
    else
      let r1 := after.dropWhile isSpace
      let digits := r1.takeWhile Char.isDigit
      let numOpt : Option Str :=
        if digits.isEmpty then
          let rom := r1.takeWhile isRoman
          if rom.isEmpty then none else some rom
        else some digits
      match numOpt with
      | none => none
      | some num =>
        let r2 := r1.drop num.length
        let r4 :=
          match r2.dropWhile isSpace with
          | c :: cs =>
            if c == ':' || c == '.' || c == '-' then cs.dropWhile isSpace
            else r2
          | [] => r2
        some (num, if r4.isEmpty then none else some r4)

/-- Matcher of pattern 3 of chapter_patterns.  The maximal digit or Roman run
must be followed by a dot and at least one whitespace character; on a
stripped line the remainder after the whitespace run is empty exactly when
nothing at all follows the whitespace, in which case (.+)$ fails. -/
def match_number_dot (t : Str) : Option (Str × Option Str) :=
  let t1 := t.dropWhile isSpace
  let digits := t1.takeWhile Char.isDigit
  let numOpt : Option Str :=
    if digits.isEmpty then
      let rom := t1.takeWhile isRoman
      if rom.isEmpty then none else some rom
    else some digits
  match numOpt with
  | none => none
  | some num =>
    match t1.drop num.length with
    | '.' :: r2 =>
      if (r2.takeWhile isSpace).isEmpty then none
      else
        let body := r2.dropWhile isSpace
        if body.isEmpty then none else some (num, some body)
    | _ => none

/-- The loop for pattern in self.chapter_patterns: the first pattern that
matches provides the groups. -/
def match_any (t : Str) : Option (Str × Option Str) :=
  match match_keyword "Chapter".data "CHAPTER".data t with
  | some r => some r
  | none =>
    match match_keyword "Section".data "SECTION".data t with
    | some r => some r
    | none => match_number_dot t

/-- The fixed ordered list chapter_starts of _extract_front_matter. -/
def chapter_starts : List Str :=
  ["Chapter 1".data, "CHAPTER 1".data, "Chapter One".data, "CHAPTER ONE".data,
   "1.".data, "I.".data, "Part 1".data, "PART 1".data]

/-- The loop of _extract_front_matter: the first listed token that occurs in
the text splits it at its first occurrence, text.split(starter, 1), with the
token put back at the front of the main content. -/
def extract_fm_go (text : Str) : List Str → Str × Str
  | [] => ([], text)
  | st :: rest =>
    match findSub st text with
    | some i => (text.take i, st ++ text.drop (i + st.length))
    | none => extract_fm_go text rest

/-- Embedding of BookStructureAnalyzer._extract_front_matter. -/
def extract_front_matter (text : Str) : Str × Str :=
  extract_fm_go text chapter_starts

/-- Test of the author loop: "by " in line.lower() or "author:" in
line.lower(). -/
def author_line (l : Str) : Bool :=
  occursIn "by ".data (lower l) || occursIn "author:".data (lower l)

/-- The author transformation:
line.replace("by ", "").replace("By ", "").replace("Author:", "").strip(). -/
def author_replace (l : Str) : Str :=
  strip (remove_all "Author:".data (remove_all "By ".data
    (remove_all "by ".data l)))

/-- First loop of _extract_title_author: the first line whose strip is
non-empty becomes the title; the default survives otherwise. -/
def first_title_loop : List Str → Str
  | [] => "Unknown Title".data
  | l :: rest => if (strip l).isEmpty then first_title_loop rest else strip l

/-- Second loop of _extract_title_author: the first line passing author_line
is transformed by author_replace; the default survives otherwise. -/
def first_author_loop : List Str → Str
  | [] => "Unknown Author".data
  | l :: rest => if author_line l then author_replace l else first_author_loop rest

/-- Embedding of BookStructureAnalyzer._extract_title_author.  The Python
guard if lines: is always taken because str.split never returns an empty
list; the loop embeddings return the defaults on an empty list, which is the
same behavior. -/
def extract_title_author (fm : Str) : Str × Str :=
  let lines := split_lines (strip fm)
  (first_title_loop lines, first_author_loop lines)

/-- One element of the items list of _detect_structural_elements. -/
structure Item where
  type : Str
  title : Str
  number : Str
  start_index : Nat
  end_index : Nat
  level : Nat
deriving DecidableEq

/-- The metadata dictionary of analyze_structure. -/
structure BookMetadata where
  word_count : Nat
  estimated_reading_time_minutes : Int
  has_front_matter : Bool
  structure_complexity : Rat
deriving DecidableEq

/-- The result dictionary of analyze_structure, with every required field. -/
structure BookStructure where
  title : Str
  author : Str
  items : List Item
  metadata : BookMetadata
deriving DecidableEq

/-- The sum sum(len(lines[k]) + 1 for k in range(a, a + fuel)); the list
accesses are modelled by the fallible lookup, mirroring Python indexing. -/
def sum_lens (lines : List Str) : Nat → Nat → Option Nat
  | 0, _ => some 0
  | fuel + 1, a =>
    match lines[a]? with
    | none => none
    | some l =>
      match sum_lens lines fuel (a + 1) with
      | none => none
      | some s => some (l.length + 1 + s)

/-- The inner loop for j in range(i + 1, len(lines)) of
_detect_structural_elements, searching for the end of the current chapter.
The fuel counts the remaining iterations, len(lines) - j, so the loop stops
exactly where the Python range does.  A line matching any pattern recomputes
end_index as start_index plus the length sum of the strictly intermediate
lines; the loop stops as soon as end_index differs from len(text). -/
def scan_end_loop (textLen : Nat) (lines : List Str) (i startIndex : Nat) :
    Nat → Nat → Nat → Option Nat
  | 0, _, e => some e
  | fuel + 1, j, e =>
    match lines[j]? with
    | none => none
    | some lj =>
      let eNew : Option Nat :=
        if (match_any (strip lj)).isSome then
          match sum_lens lines (j - (i + 1)) (i + 1) with
          | none => none
          | some s => some (startIndex + s)
        else some e
      match eNew with
      | none => none
      | some e2 =>
        if e2 ≠ textLen then some e2
        else scan_end_loop textLen lines i startIndex fuel (j + 1) e2

/-- The chapter title expression: group 2 when it matched (it is then never
empty), else the formatted fallback "Chapter {num}". -/
def title_of (num : Str) : Option Str → Str
  | some t => t
  | none => "Chapter ".data ++ num

/-- The outer loop for i, line in enumerate(lines) of
_detect_structural_elements.  current_position advances by len(line) + 1
after every line; a matching line emits one item with type "chapter" and
level 1, whose title falls back to "Chapter {num}" when group 2 is absent. -/
def detect_loop (textLen : Nat) (lines : List Str) :
    Nat → Nat → Nat → List Item → Option (List Item)
  | 0, _, _, acc => some acc
  | fuel + 1, i, pos, acc =>
    match lines[i]? with
    | none => none
    | some line =>
      let accNew : Option (List Item) :=
        match match_any (strip line) with
        | some (num, t2) =>
          match scan_end_loop textLen lines i pos (lines.length - (i + 1))
              (i + 1) textLen with
          | none => none
          | some e =>
            some (acc ++ [{ type := "chapter".data,
                            title := strip (title_of num t2),
                            number := num, start_index := pos, end_index := e,
                            level := 1 }])
        | none => some acc
      match accNew with
      | none => none
      | some acc2 =>
        detect_loop textLen lines fuel (i + 1) (pos + line.length + 1) acc2

/-- Embedding of BookStructureAnalyzer._detect_structural_elements. -/
def detect_structural_elements (text : Str) : Option (List Item) :=
  let lines := split_lines text
  detect_loop text.length lines lines.length 0 0 []

/-- Python round: nearest integer, ties to the even integer.  The division
word_count / 225 is modelled exactly over the rationals; the quotient of a
natural number by 225 is never a half-integer, so the tie branch is
unreachable in this program. -/
def python_round (q : Rat) : Int :=
  let f := ⌊q⌋
  let r := q - (f : Rat)
  if r < 1 / 2 then f
  else if 1 / 2 < r then f + 1
  else if f % 2 = 0 then f else f + 1

/-- Embedding of BookStructureAnalyzer._calculate_reading_time. -/
def calculate_reading_time (text : Str) : Int :=
  let word_count := (split_ws text).length
  max 1 (python_round ((word_count : Rat) / 225))

/-- Embedding of BookStructureAnalyzer._calculate_complexity. -/
def calculate_complexity (items : List Item) : Rat :=
  if items.isEmpty then 0
  else min 1 ((items.length : Rat) / 30)

/-- Embedding of BookStructureAnalyzer.analyze_structure.  The only fallible
operations of the pipeline are the list indexings of the detection loops,
threaded through Option; has_front_matter is bool(front_matter), the
truthiness of the untrimmed front matter. -/
def analyze_structure (text : Str) : Option BookStructure :=
  let fm := (extract_front_matter text).1
  let mc := (extract_front_matter text).2
  let ta := extract_title_author fm
  match detect_structural_elements mc with
  | none => none
  | some items =>
    some { title := ta.1, author := ta.2, items := items,
           metadata := { word_count := (split_ws text).length,
                         estimated_reading_time_minutes :=
                           calculate_reading_time text,
                         has_front_matter := !fm.isEmpty,
                         structure_complexity := calculate_complexity items } }

/-! Basic facts about substring search. -/

lemma startsWith_self_append (p : Str) : ∀ t, startsWith p (p ++ t) = true := by
  induction p with
  | nil => intro t; rfl
  | cons a ps ih => intro t; simp [startsWith, ih t]

lemma startsWith_eq_append (p : Str) :
    ∀ s, startsWith p s = true → s = p ++ s.drop p.length := by
  induction p with
  | nil => intro s _; simp
  | cons a ps ih =>
    intro s hs
    cases s with
    | nil => simp [startsWith] at hs
    | cons c cs =>
      simp only [startsWith, Bool.and_eq_true, beq_iff_eq] at hs
      obtain ⟨rfl, h2⟩ := hs
      simpa [List.length_cons] using ih cs h2

lemma findSub_starts (pat : Str) :
    ∀ s i, findSub pat s = some i → startsWith pat (s.drop i) = true := by
  intro s
  induction s with
  | nil =>
    intro i h
    simp only [findSub] at h
    split at h
    · cases h; simpa using ‹startsWith pat [] = true›
    · cases h
  | cons c rest ih =>
    intro i h
    simp only [findSub] at h
    split at h
    · cases h; simpa using ‹startsWith pat (c :: rest) = true›
    · cases hn : findSub pat rest with
      | none => rw [hn] at h; cases h
      | some n =>
        rw [hn] at h
        cases h
        simpa using ih n hn

lemma findSub_min (pat : Str) :
    ∀ s i, findSub pat s = some i →
      ∀ k, k < i → startsWith pat (s.drop k) = false := by
  intro s
  induction s with
  | nil =>
    intro i h k hk
    simp only [findSub] at h
    split at h
    · cases h; omega
    · cases h
  | cons c rest ih =>
    intro i h k hk
    simp only [findSub] at h
    split at h
    · cases h; omega
    · cases hn : findSub pat rest with
      | none => rw [hn] at h; cases h
      | some n =>
        rw [hn, Option.map_some'] at h
        cases h
        cases k with
        | zero =>
          simpa using Bool.of_not_eq_true ‹¬ startsWith pat (c :: rest) = true›
        | succ k => simpa using ih n hn k (by omega)

lemma findSub_none (pat : Str) :
    ∀ s, findSub pat s = none → ∀ k, startsWith pat (s.drop k) = false := by
  intro s
  induction s with
  | nil =>
    intro h k
    simp only [findSub] at h
    split at h
    · cases h
    · simpa using Bool.of_not_eq_true ‹¬ startsWith pat [] = true›
  | cons c rest ih =>
    intro h k
    simp only [findSub] at h
    split at h
    · cases h
    · have hn : findSub pat rest = none := by
        cases hn : findSub pat rest with
        | none => rfl
        | some n => rw [hn] at h; cases h
      cases k with
      | zero => simpa using Bool.of_not_eq_true ‹¬ startsWith pat (c :: rest) = true›
      | succ k => simpa using ih hn k

lemma split_at_findSub (pat s : Str) (i : Nat) (h : findSub pat s = some i) :
    s.take i ++ (pat ++ s.drop (i + pat.length)) = s := by
  have h1 := startsWith_eq_append pat (s.drop i) (findSub_starts pat s i h)
  rw [List.drop_drop] at h1
  calc s.take i ++ (pat ++ s.drop (i + pat.length))
      = s.take i ++ s.drop i := by rw [← h1]
    _ = s := List.take_append_drop i s

/-! Claim C4: soundness of the front-matter split. -/

lemma extract_fm_go_concat (text : Str) :
    ∀ l, (extract_fm_go text l).1 ++ (extract_fm_go text l).2 = text := by
  intro l
  induction l with
  | nil => rfl
  | cons st rest ih =>
    simp only [extract_fm_go]
    cases h : findSub st text with
    | none => exact ih
    | some i => exact split_at_findSub st text i h

lemma extract_fm_go_found (text : Str) :
    ∀ l st, st ∈ l → occursIn st text = true →
      ∃ st2 ∈ l, startsWith st2 (extract_fm_go text l).2 = true := by
  intro l
  induction l with
  | nil => intro st h; cases h
  | cons st0 rest ih =>
    intro st hmem hocc
    cases h : findSub st0 text with
    | some i =>
      refine ⟨st0, List.mem_cons_self st0 rest, ?_⟩
      simp only [extract_fm_go, h]
      exact startsWith_self_append st0 _
    | none =>
      have hst : st ∈ rest := by
        rcases List.mem_cons.1 hmem with rfl | hr
        · exact absurd hocc (by simp [occursIn, h])
        · exact hr
      obtain ⟨st2, hst2, hsw⟩ := ih st hst hocc
      refine ⟨st2, List.mem_cons_of_mem st0 hst2, ?_⟩
      simpa only [extract_fm_go, h] using hsw

lemma extract_fm_go_none (text : Str) :
    ∀ l, (∀ st ∈ l, occursIn st text = false) → extract_fm_go text l = ([], text) := by
  intro l
  induction l with
  | nil => intro _; rfl
  | cons st0 rest ih =>
    intro hall
    have h0 : findSub st0 text = none := by
      have := hall st0 (List.mem_cons_self st0 rest)
      simpa [occursIn, Option.isSome_iff_exists] using this
    simp only [extract_fm_go, h0]
    exact ih (fun st hst => hall st (List.mem_cons_of_mem st0 hst))

/-- Claim C4: for every input string the front-matter splitter returns a pair
whose concatenation is the original string; when some chapter-start token
occurs, the matched token is retained at the start of the main content, and
when no listed token occurs, the front matter is empty and the main content
is the whole input. -/
theorem front_matter_split_sound (text : Str) :
    (extract_front_matter text).1 ++ (extract_front_matter text).2 = text ∧
    ((∃ st ∈ chapter_starts, occursIn st text = true) →
      ∃ st ∈ chapter_starts, startsWith st (extract_front_matter text).2 = true) ∧
    ((∀ st ∈ chapter_starts, occursIn st text = false) →
      (extract_front_matter text).1 = [] ∧ (extract_front_matter text).2 = text) := by
  refine ⟨extract_fm_go_concat text chapter_starts, ?_, ?_⟩
  · rintro ⟨st, hmem, hocc⟩
    exact extract_fm_go_found text chapter_starts st hmem hocc
  · intro hall
    rw [extract_front_matter, extract_fm_go_none text chapter_starts hall]
    exact ⟨rfl, rfl⟩

/-- Witness for C4 at two concrete inputs: a text containing the token
"Chapter 1" keeps the token at the start of the main content, and a text
containing no listed token is returned unchanged. -/
theorem front_matter_split_sound_wit :
    (∃ st ∈ chapter_starts,
      startsWith st (extract_front_matter "intro\nChapter 1 go".data).2 = true) ∧
    (extract_front_matter "plain text".data).1 = [] ∧
    (extract_front_matter "plain text".data).2 = "plain text".data :=
  ⟨(front_matter_split_sound "intro\nChapter 1 go".data).2.1
      ⟨"Chapter 1".data, by decide, by decide⟩,
   (front_matter_split_sound "plain text".data).2.2 (by decide)⟩

/-! Claim C5: tokens are tried in list order, first listed token wins. -/

lemma extract_fm_go_priority (text : Str) :
    ∀ (l : List Str) (n : Nat) (st : Str), l[n]? = some st →
      (∀ m, m < n → ∀ st2, l[m]? = some st2 → findSub st2 text = none) →
      ∀ i, findSub st text = some i →
      extract_fm_go text l = (text.take i, st ++ text.drop (i + st.length)) := by
  intro l
  induction l with
  | nil => intro n st hn; rw [List.getElem?_nil] at hn; cases hn
  | cons st0 rest ih =>
    intro n st hn hearlier i hi
    cases n with
    | zero =>
      rw [List.getElem?_cons_zero] at hn
      cases hn
      simp only [extract_fm_go, hi]
    | succ n =>
      have h0 : findSub st0 text = none :=
        hearlier 0 (Nat.succ_pos n) st0 List.getElem?_cons_zero
      rw [List.getElem?_cons_succ] at hn
      simp only [extract_fm_go, h0]
      exact ih n st hn
        (fun m hm st2 hm2 =>
          hearlier (m + 1) (by omega) st2 (by rwa [List.getElem?_cons_succ]))
        i hi

/-- Claim C5: if the token at position n of the fixed list occurs in the text
and no earlier-listed token occurs anywhere in the text, then the splitter
splits at the first occurrence of that token, regardless of where any
later-listed token occurs; moreover the split point is the first occurrence
of the winning token. -/
theorem front_matter_priority (text : Str) (n : Nat) (st : Str)
    (hn : chapter_starts[n]? = some st)
    (hearlier : ∀ m, m < n → ∀ st2, chapter_starts[m]? = some st2 →
      occursIn st2 text = false)
    (i : Nat) (hi : findSub st text = some i) :
    extract_front_matter text = (text.take i, st ++ text.drop (i + st.length)) ∧
    ∀ k, k < i → startsWith st (text.drop k) = false := by
  constructor
  · exact extract_fm_go_priority text chapter_starts n st hn
      (fun m hm st2 hm2 => by
        have := hearlier m hm st2 hm2
        simpa [occursIn, Option.isSome_iff_exists] using this)
      i hi
  · exact findSub_min st text i hi

/-- Witness for C5: in the text "1. intro\nChapter 1 here" the token "1."
(listed fifth) occurs at offset 0, earlier in the text than "Chapter 1"
(listed first, occurring at offset 9), yet the split happens at the first
occurrence of "Chapter 1". -/
theorem front_matter_priority_wit :
    extract_front_matter "1. intro\nChapter 1 here".data =
      (("1. intro\nChapter 1 here".data).take 9,
        "Chapter 1".data ++ ("1. intro\nChapter 1 here".data).drop 18) ∧
    ∀ k, k < 9 →
      startsWith "Chapter 1".data (("1. intro\nChapter 1 here".data).drop k) = false :=
  front_matter_priority "1. intro\nChapter 1 here".data 0 "Chapter 1".data
    (by decide) (fun m hm => absurd hm (Nat.not_lt_zero m)) 9 (by decide)

/-! Claim C9: author extraction. -/

lemma first_author_loop_find : ∀ ls : List Str,
    first_author_loop ls =
      match ls.find? author_line with
      | some l => author_replace l
      | none => "Unknown Author".data := by
  intro ls
  induction ls with
  | nil => rfl
  | cons l rest ih =>
    cases h : author_line l with
    | true => simp [first_author_loop, List.find?_cons, h]
    | false => simp [first_author_loop, List.find?_cons, h, ih]

/-- Counterexample for C9 as written: the line "AUTHOR: Jane Doe" passes the
case-insensitive containment test, but the replacements only remove the exact
spellings "by ", "By " and "Author:", so the upper-case marker survives and
the extracted author is not the bare name. -/
theorem author_marker_cex :
    (extract_title_author "AUTHOR: Jane Doe".data).2 = "AUTHOR: Jane Doe".data ∧
    (extract_title_author "AUTHOR: Jane Doe".data).2 ≠ "Jane Doe".data := by
  decide

/-- Claim C9 amended: the author is obtained from the first line of the
split front matter that case-insensitively contains "by " or "author:", by
removing every occurrence of the exact, case-sensitive literals "by ", "By "
and "Author:" (in that order) and stripping the result; markers in any other
spelling, such as "AUTHOR:" or "BY ", are left in place.  If no line passes
the test the author is "Unknown Author". -/
theorem author_extraction_eq (fm : Str) :
    (extract_title_author fm).2 =
      match (split_lines (strip fm)).find? author_line with
      | some l => author_replace l
      | none => "Unknown Author".data :=
  first_author_loop_find (split_lines (strip fm))

/-! Claim C7: the complexity score. -/

/-- Claim C7: the complexity score is min(1, headings / 30); it is exactly 0
on the empty list, 1 at thirty headings, and stays clamped at 1 at sixty. -/
theorem complexity_formula :
    (∀ items : List Item,
      calculate_complexity items = min 1 ((items.length : Rat) / 30)) ∧
    calculate_complexity [] = 0 ∧
    (∀ items : List Item, items.length = 30 → calculate_complexity items = 1) ∧
    (∀ items : List Item, items.length = 60 → calculate_complexity items = 1) := by
  have hmain : ∀ items : List Item,
      calculate_complexity items = min 1 ((items.length : Rat) / 30) := by
    intro items
    cases items with
    | nil => simp [calculate_complexity]
    | cons a l => simp [calculate_complexity]
  refine ⟨hmain, by simp [calculate_complexity], ?_, ?_⟩
  · intro items h
    rw [hmain items, h]
    norm_num
  · intro items h
    rw [hmain items, h]
    rw [min_eq_left (by norm_num)]

/-- A featureless heading record used to build lists of a given length. -/
def blank_item : Item :=
  { type := [], title := [], number := [], start_index := 0, end_index := 0,
    level := 0 }

/-- Witness for C7 at lists of exactly thirty and sixty headings. -/
theorem complexity_formula_wit :
    calculate_complexity (List.replicate 30 blank_item) = 1 ∧
    calculate_complexity (List.replicate 60 blank_item) = 1 :=
  ⟨complexity_formula.2.2.1 _ (by simp),
   complexity_formula.2.2.2 _ (by simp)⟩

/-! Offset arithmetic for the detection loops. -/

/-- The sum of len(lines[k]) + 1 over k in range(a, a + fuel), with the
default empty string for out-of-range indices. -/
def off_range (lines : List Str) : Nat → Nat → Nat
  | _, 0 => 0
  | a, fuel + 1 => ((lines[a]?).getD []).length + 1 + off_range lines (a + 1) fuel

lemma off_range_split (lines : List Str) :
    ∀ (m a n : Nat),
      off_range lines a (m + n) = off_range lines a m + off_range lines (a + m) n := by
  intro m
  induction m with
  | zero => intro a n; simp [off_range]
  | succ m ih =>
    intro a n
    rw [show m + 1 + n = (m + n) + 1 by omega]
    simp only [off_range]
    rw [ih (a + 1) n]
    rw [show a + 1 + m = a + (m + 1) by omega]
    omega

lemma off_range_one (lines : List Str) (a : Nat) :
    off_range lines a 1 = ((lines[a]?).getD []).length + 1 := by
  simp [off_range]

lemma off_range_shift (x : Str) (xs : List Str) :
    ∀ fuel a, off_range (x :: xs) (a + 1) fuel = off_range xs a fuel := by
  intro fuel
  induction fuel with
  | zero => intro a; rfl
  | succ fuel ih =>
    intro a
    simp only [off_range, List.getElem?_cons_succ]
    rw [ih (a + 1)]

lemma off_range_cons (x : Str) (xs : List Str) (n : Nat) :
    off_range (x :: xs) 0 (n + 1) = x.length + 1 + off_range xs 0 n := by
  simp only [off_range, List.getElem?_cons_zero, Option.getD_some]
  rw [off_range_shift x xs n 0]

lemma split_lines_ne_nil : ∀ s : Str, split_lines s ≠ [] := by
  intro s
  cases s with
  | nil => simp [split_lines]
  | cons c rest =>
    simp only [split_lines]
    by_cases hc : (c == '\n') = true
    · rw [if_pos hc]; simp
    · rw [if_neg hc]
      cases h : split_lines rest with
      | nil => simp
      | cons l ls => simp

/-- The lengths of the split lines, each counted with its newline, total one
more than the length of the original string. -/
lemma off_range_all_split_lines : ∀ s : Str,
    off_range (split_lines s) 0 (split_lines s).length = s.length + 1 := by
  intro s
  induction s with
  | nil => rfl
  | cons c rest ih =>
    simp only [split_lines]
    by_cases hc : (c == '\n') = true
    · rw [if_pos hc]
      simp only [List.length_cons, off_range_cons, List.length_nil]
      rw [ih]
      omega
    · rw [if_neg hc]
      cases h : split_lines rest with
      | nil => exact absurd h (split_lines_ne_nil rest)
      | cons l ls =>
        rw [h] at ih
        simp only [List.length_cons, off_range_cons] at ih ⊢
        omega

lemma off_range_succ_getElem (lines : List Str) (i : Nat) (hi : i < lines.length) :
    off_range lines 0 i + lines[i].length + 1 = off_range lines 0 (i + 1) := by
  have h := off_range_split lines i 0 1
  rw [Nat.zero_add, off_range_one, List.getElem?_eq_getElem hi, Option.getD_some] at h
  omega

lemma sum_lens_eq (lines : List Str) :
    ∀ fuel a, a + fuel ≤ lines.length →
      sum_lens lines fuel a = some (off_range lines a fuel) := by
  intro fuel
  induction fuel with
  | zero => intro a _; rfl
  | succ fuel ih =>
    intro a h
    have ha : a < lines.length := by omega
    simp only [sum_lens, List.getElem?_eq_getElem ha, ih (a + 1) (by omega),
      off_range, Option.getD_some]

/-! Totality of the detection loops (claim C1). -/

lemma scan_end_loop_isSome (textLen : Nat) (lines : List Str) (i s0 : Nat) :
    ∀ fuel j e, fuel + j = lines.length → i + 1 ≤ j →
      (scan_end_loop textLen lines i s0 fuel j e).isSome = true := by
  intro fuel
  induction fuel with
  | zero => intro j e _ _; rfl
  | succ fuel ih =>
    intro j e hfj hij
    have hj : j < lines.length := by omega
    have hsum := sum_lens_eq lines (j - (i + 1)) (i + 1) (by omega)
    simp only [scan_end_loop, List.getElem?_eq_getElem hj, hsum]
    by_cases hm : (match_any (strip lines[j])).isSome = true
    · simp only [if_pos hm]
      by_cases hne : s0 + off_range lines (i + 1) (j - (i + 1)) ≠ textLen
      · simp only [if_pos hne, Option.isSome_some]
      · simp only [if_neg hne]
        exact ih (j + 1) _ (by omega) (by omega)
    · simp only [if_neg hm]
      by_cases hne : e ≠ textLen
      · simp only [if_pos hne, Option.isSome_some]
      · simp only [if_neg hne]
        exact ih (j + 1) e (by omega) (by omega)

lemma detect_loop_isSome (textLen : Nat) (lines : List Str) :
    ∀ fuel i pos acc, fuel + i = lines.length →
      (detect_loop textLen lines fuel i pos acc).isSome = true := by
  intro fuel
  induction fuel with
  | zero => intro i pos acc _; rfl
  | succ fuel ih =>
    intro i pos acc hfi
    have hi : i < lines.length := by omega
    simp only [detect_loop, List.getElem?_eq_getElem hi]
    cases hm : match_any (strip lines[i]) with
    | none =>
      simp only [hm]
      exact ih (i + 1) _ _ (by omega)
    | some r =>
      obtain ⟨num, t2⟩ := r
      simp only [hm]
      have hscan := scan_end_loop_isSome textLen lines i pos
        (lines.length - (i + 1)) (i + 1) textLen (by omega) (by omega)
      cases hs : scan_end_loop textLen lines i pos (lines.length - (i + 1))
          (i + 1) textLen with
      | none => rw [hs] at hscan; simp at hscan
      | some e =>
        simp only [hs]
        exact ih (i + 1) _ _ (by omega)

lemma detect_elements_isSome (text : Str) :
    (detect_structural_elements text).isSome = true := by
  simp only [detect_structural_elements]
  exact detect_loop_isSome text.length (split_lines text)
    (split_lines text).length 0 0 [] (by omega)

/-- Claim C1: for every string (including the empty string and pure
whitespace), analyze_structure terminates and returns a record carrying all
required fields: title, author, the heading list, and metadata with word
count, estimated reading time, the front-matter flag and the structure
complexity (all fields of the BookStructure record).  The only fallible
operations of the pipeline, the list indexings of the detection loops, are
always in bounds. -/
theorem analyze_structure_total (s : Str) : ∃ b, analyze_structure s = some b := by
  have h := detect_elements_isSome (extract_front_matter s).2
  simp only [analyze_structure]
  cases hd : detect_structural_elements (extract_front_matter s).2 with
  | none => rw [hd] at h; simp at h
  | some items => exact ⟨_, rfl⟩

/-! Bounds on the computed spans (claim C3). -/

lemma scan_end_loop_bound (textLen : Nat) (lines : List Str) (i : Nat)
    (htop : off_range lines 0 lines.length ≤ textLen + 1) :
    ∀ fuel j e, fuel + j = lines.length → i + 1 ≤ j →
      off_range lines 0 i ≤ e → e ≤ textLen →
      ∀ r, scan_end_loop textLen lines i (off_range lines 0 i) fuel j e = some r →
        off_range lines 0 i ≤ r ∧ r ≤ textLen := by
  intro fuel
  induction fuel with
  | zero =>
    intro j e _ _ h1 h2 r hr
    simp only [scan_end_loop] at hr
    cases hr
    exact ⟨h1, h2⟩
  | succ fuel ih =>
    intro j e hfj hij h1 h2 r hr
    have hj : j < lines.length := by omega
    have hsum := sum_lens_eq lines (j - (i + 1)) (i + 1) (by omega)
    have hsplit1 : off_range lines 0 j =
        off_range lines 0 (i + 1) + off_range lines (i + 1) (j - (i + 1)) := by
      have h' := off_range_split lines (i + 1) 0 (j - (i + 1))
      rw [Nat.zero_add, show (i + 1) + (j - (i + 1)) = j by omega] at h'
      exact h'
    have hsplit2 : off_range lines 0 (i + 1) =
        off_range lines 0 i + off_range lines i 1 := by
      have h' := off_range_split lines i 0 1
      rw [Nat.zero_add] at h'
      exact h'
    have hone : 1 ≤ off_range lines i 1 := by
      simp only [off_range]
      omega
    have hsplit3 : off_range lines 0 lines.length =
        off_range lines 0 j + off_range lines j (lines.length - j) := by
      have h' := off_range_split lines j 0 (lines.length - j)
      rw [Nat.zero_add, show j + (lines.length - j) = lines.length by omega] at h'
      exact h'
    have htail : 1 ≤ off_range lines j (lines.length - j) := by
      rw [show lines.length - j = (lines.length - j - 1) + 1 by omega]
      simp only [off_range]
      omega
    simp only [scan_end_loop, List.getElem?_eq_getElem hj, hsum] at hr
    by_cases hm : (match_any (strip lines[j])).isSome = true
    · simp only [if_pos hm] at hr
      by_cases hne :
          off_range lines 0 i + off_range lines (i + 1) (j - (i + 1)) ≠ textLen
      · simp only [if_pos hne] at hr
        cases hr
        constructor
        · omega
        · omega
      · simp only [if_neg hne] at hr
        exact ih (j + 1) _ (by omega) (by omega) (by omega) (by omega) r hr
    · simp only [if_neg hm] at hr
      by_cases hne : e ≠ textLen
      · simp only [if_pos hne] at hr
        cases hr
        exact ⟨h1, h2⟩
      · simp only [if_neg hne] at hr
        exact ih (j + 1) e (by omega) (by omega) h1 h2 r hr

/-- Every item the outer loop appends satisfies a property P that holds for
all freshly built records; the accumulator only grows. -/
lemma detect_loop_mem (textLen : Nat) (lines : List Str) (P : Item → Prop)
    (hnew : ∀ i num t2 e, i < lines.length →
      scan_end_loop textLen lines i (off_range lines 0 i)
          (lines.length - (i + 1)) (i + 1) textLen = some e →
      P { type := "chapter".data, title := strip (title_of num t2),
          number := num, start_index := off_range lines 0 i, end_index := e,
          level := 1 }) :
    ∀ fuel i acc, fuel + i = lines.length → (∀ x ∈ acc, P x) →
      ∀ items,
        detect_loop textLen lines fuel i (off_range lines 0 i) acc = some items →
        ∀ x ∈ items, P x := by
  intro fuel
  induction fuel with
  | zero =>
    intro i acc _ hacc items h
    simp only [detect_loop] at h
    cases h
    exact hacc
  | succ fuel ih =>
    intro i acc hfi hacc items h
    have hi : i < lines.length := by omega
    simp only [detect_loop, List.getElem?_eq_getElem hi] at h
    have hpos : off_range lines 0 i + lines[i].length + 1 =
        off_range lines 0 (i + 1) := off_range_succ_getElem lines i hi
    cases hm : match_any (strip lines[i]) with
    | none =>
      simp only [hm] at h
      rw [hpos] at h
      exact ih (i + 1) acc (by omega) hacc items h
    | some r =>
      obtain ⟨num, t2⟩ := r
      simp only [hm] at h
      cases hs : scan_end_loop textLen lines i (off_range lines 0 i)
          (lines.length - (i + 1)) (i + 1) textLen with
      | none => simp only [hs] at h; exact absurd h (by simp)
      | some e =>
        simp only [hs] at h
        rw [hpos] at h
        refine ih (i + 1) _ (by omega) ?_ items h
        intro x hx
        rcases List.mem_append.1 hx with hx1 | hx2
        · exact hacc x hx1
        · rw [List.mem_singleton] at hx2
          subst hx2
          exact hnew i num t2 e hi hs

/-- Claim C10: every heading record the scanner emits has level 1 and type
"chapter", even when the line was matched by the Section pattern or the bare
numeral pattern. -/
theorem heading_type_level (text : Str) (items : List Item) (x : Item)
    (hdet : detect_structural_elements text = some items) (hx : x ∈ items) :
    x.level = 1 ∧ x.type = "chapter".data := by
  have h0 : off_range (split_lines text) 0 0 = 0 := rfl
  refine detect_loop_mem text.length (split_lines text)
    (fun y => y.level = 1 ∧ y.type = "chapter".data)
    (fun i num t2 e _ _ => ⟨rfl, rfl⟩)
    (split_lines text).length 0 [] (by omega) (by simp) items ?_ x hx
  rw [h0]
  simpa only [detect_structural_elements] using hdet

/-- Witness for C10: the line "Section 4: Maps" is matched by the Section
pattern, yet the emitted record has level 1 and type "chapter". -/
theorem heading_type_level_wit :
    (1 : Nat) = 1 ∧ "chapter".data = "chapter".data :=
  heading_type_level "Section 4: Maps".data
    [{ type := "chapter".data, title := "Maps".data, number := "4".data,
       start_index := 0, end_index := 15, level := 1 }]
    { type := "chapter".data, title := "Maps".data, number := "4".data,
      start_index := 0, end_index := 15, level := 1 }
    (by decide) (by decide)

/-- Claim C3 amended: every emitted heading record satisfies
start_index less than or equal to end_index, and end_index at most the length
of the scanned text; the strict inequality of the original claim fails (see
the counterexample). -/
theorem heading_offsets_le (text : Str) (items : List Item) (x : Item)
    (hdet : detect_structural_elements text = some items) (hx : x ∈ items) :
    x.start_index ≤ x.end_index ∧ x.end_index ≤ text.length := by
  have htop : off_range (split_lines text) 0 (split_lines text).length ≤
      text.length + 1 := le_of_eq (off_range_all_split_lines text)
  have h0 : off_range (split_lines text) 0 0 = 0 := rfl
  refine detect_loop_mem text.length (split_lines text)
    (fun y => y.start_index ≤ y.end_index ∧ y.end_index ≤ text.length)
    ?_ (split_lines text).length 0 [] (by omega) (by simp) items ?_ x hx
  · intro i num t2 e hi hs
    have hstart : off_range (split_lines text) 0 i ≤ text.length := by
      have hsplit := off_range_split (split_lines text) i 0
        ((split_lines text).length - i)
      rw [Nat.zero_add,
        show i + ((split_lines text).length - i) = (split_lines text).length
          by omega] at hsplit
      have htail : 1 ≤ off_range (split_lines text) i
          ((split_lines text).length - i) := by
        rw [show (split_lines text).length - i =
            ((split_lines text).length - i - 1) + 1 by omega]
        simp only [off_range]
        omega
      omega
    exact scan_end_loop_bound text.length (split_lines text) i htop
      ((split_lines text).length - (i + 1)) (i + 1) text.length (by omega)
      (by omega) hstart le_rfl e hs
  · rw [h0]
    simpa only [detect_structural_elements] using hdet

/-- Witness for the amended C3 at the input "Chapter 1\nhello": the single
record spans offsets 0 to 15 within the 15-character text. -/
theorem heading_offsets_le_wit :
    (0 : Nat) ≤ 15 ∧ (15 : Nat) ≤ ("Chapter 1\nhello".data).length :=
  heading_offsets_le "Chapter 1\nhello".data
    [{ type := "chapter".data, title := "Chapter 1".data, number := "1".data,
       start_index := 0, end_index := 15, level := 1 }]
    { type := "chapter".data, title := "Chapter 1".data, number := "1".data,
      start_index := 0, end_index := 15, level := 1 }
    (by decide) (by decide)

/-- Counterexample for C3 as stated: on the main content
"Chapter 1\nChapter 2" the two heading lines are adjacent, the forward sum
over range(i + 1, j) is empty, and the first record gets
end_index = start_index = 0, so start_offset < end_offset fails. -/
theorem start_lt_end_cex :
    ¬ (∀ (text : Str) (items : List Item) (x : Item),
        detect_structural_elements text = some items → x ∈ items →
        x.start_index < x.end_index ∧ x.end_index ≤ text.length) := by
  intro hclaim
  have h := hclaim "Chapter 1\nChapter 2".data
    [{ type := "chapter".data, title := "Chapter 1".data, number := "1".data,
       start_index := 0, end_index := 0, level := 1 },
     { type := "chapter".data, title := "Chapter 2".data, number := "2".data,
       start_index := 10, end_index := 19, level := 1 }]
    { type := "chapter".data, title := "Chapter 1".data, number := "1".data,
      start_index := 0, end_index := 0, level := 1 }
    (by decide) (by decide)
  exact absurd h.1 (by decide)

/-- Claim C2 (code bug): on "Chapter 1\nx\nChapter 2" the next matching line
after the first heading starts at character offset 12 (the start_index of
the second record), but the scanner assigns end_index 2: the forward sum
ranges over range(i + 1, j) and so omits the heading line itself, missing
len("Chapter 1") + 1 = 10 characters, contrary to the comment in the source
that the end is the start of the next chapter. -/
theorem end_offset_eval :
    detect_structural_elements "Chapter 1\nx\nChapter 2".data =
      some [{ type := "chapter".data, title := "Chapter 1".data,
              number := "1".data, start_index := 0, end_index := 2,
              level := 1 },
            { type := "chapter".data, title := "Chapter 2".data,
              number := "2".data, start_index := 12, end_index := 21,
              level := 1 }] ∧
    (2 : Nat) ≠ 12 := by
  decide

/-- Counterexample for C6 as stated: on " Chapter 1" the front matter is a
single space, which trims to the empty string, yet has_front_matter is true,
because the code computes bool(front_matter) on the untrimmed string. -/
theorem has_front_matter_cex :
    (analyze_structure " Chapter 1".data).map
        (fun b => b.metadata.has_front_matter) = some true ∧
    strip (extract_front_matter " Chapter 1".data).1 = [] := by
  decide

/-- Claim C6 amended: has_front_matter is the truthiness of the untrimmed
front matter, true exactly when the front matter is non-empty, including when
it consists of whitespace only. -/
theorem has_front_matter_eq (s : Str) :
    (analyze_structure s).map (fun b => b.metadata.has_front_matter) =
      some (!(extract_front_matter s).1.isEmpty) := by
  have h := detect_elements_isSome (extract_front_matter s).2
  simp only [analyze_structure]
  cases hd : detect_structural_elements (extract_front_matter s).2 with
  | none => rw [hd] at h; simp at h
  | some items => simp only [hd, Option.map_some']

/-- Claim C8: word_count is the number of whitespace-delimited tokens of the
raw text and the reading time is max(1, round(word_count / 225)) with Python
rounding (modelled exactly over the rationals; the quotient is never a half
integer, so the tie rule is immaterial); the empty string yields word count 0
and reading time 1. -/
theorem word_count_reading_time_eq :
    (∀ s : Str, (analyze_structure s).map
        (fun b => (b.metadata.word_count,
                   b.metadata.estimated_reading_time_minutes)) =
      some ((split_ws s).length,
            max 1 (python_round (((split_ws s).length : Rat) / 225)))) ∧
    (analyze_structure []).map
        (fun b => (b.metadata.word_count,
                   b.metadata.estimated_reading_time_minutes)) = some (0, 1) := by
  have hmain : ∀ s : Str, (analyze_structure s).map
      (fun b => (b.metadata.word_count,
                 b.metadata.estimated_reading_time_minutes)) =
      some ((split_ws s).length,
            max 1 (python_round (((split_ws s).length : Rat) / 225))) := by
    intro s
    have h := detect_elements_isSome (extract_front_matter s).2
    simp only [analyze_structure]
    cases hd : detect_structural_elements (extract_front_matter s).2 with
    | none => rw [hd] at h; simp at h
    | some items => simp only [Option.map_some', calculate_reading_time]
  refine ⟨hmain, ?_⟩
  rw [hmain []]
  have h0 : (split_ws []).length = 0 := rfl
  rw [h0]
  have hq : ((0 : Nat) : Rat) / 225 = 0 := by norm_num
  rw [hq]
  have hr : python_round 0 = 0 := by norm_num [python_round]
  rw [hr]
  norm_num
